import Mathlib

/-!
Verification of the SkillGuard dependency vulnerability reconciliation and
risk-scoring engine.

The definitions below are a shallow embedding of the TypeScript sources:
  - `src/scorer.ts` (risk score weights, `calculateRiskScore`, `getRiskLevel`),
  - the vulnerability scanner module (`mapNpmSeverity`, `mapCvssToSeverity`,
    `runNpmAudit`, `queryOsv`, `batchQueryOsv`, `parseLockFile`,
    `parsePackageJson`, `scanVulnerabilities`),
  - the dependency inspector (`checkDependency`, `inspectDependenciesAsync`).

JavaScript machine integers do not occur: every number manipulated by the
embedded code is a small non-negative integer (weights, scores) or a decimal
CVSS score, so scores are modeled as `Nat` and CVSS values as `Rat`.
File-system reads, subprocess invocations and HTTP fetches are modeled by
explicit environment records whose fields give the outcome of each external
call; a thrown JavaScript exception is an `Except.error`.
-/

namespace SkillGuard

/-- Ordinal severity scale used by every finding (`types.ts`). -/
inductive RiskSeverity where
  | critical
  | high
  | medium
  | low
deriving DecidableEq, Repr

/-- Discrete risk level of a whole scan (`ScanResult.riskLevel` in `types.ts`). -/
inductive RiskLevel where
  | safe
  | low
  | medium
  | high
  | critical
deriving DecidableEq, Repr

/-- Source tag of a dependency finding (`DependencyFinding.source` in `types.ts`). -/
inductive DepSource where
  | threatDb
  | npmAudit
  | osv
  | patternMatch
deriving DecidableEq, Repr

/-- Code finding produced by the per-language analyzers (`Finding` in `types.ts`).
Only `category` and `severity` are read by the scorer; the remaining fields are
carried verbatim. -/
structure Finding where
  file : String
  line : Nat
  column : Nat
  severity : RiskSeverity
  category : String
  description : String
  codeSnippet : String
  language : Option String := none
deriving DecidableEq, Repr

/-- Dependency finding (`DependencyFinding` in `types.ts`). Optional fields are
`Option`s; a JavaScript `undefined` is `none`. -/
structure DependencyFinding where
  name : String
  severity : RiskSeverity
  reason : String
  version : Option String := none
  vulnerableVersions : Option String := none
  cveId : Option String := none
  cvssScore : Option Rat := none
  source : Option DepSource := none
  fixAvailable : Option String := none
  url : Option String := none
deriving DecidableEq, Repr

/-! ## Scorer (`src/scorer.ts`) -/

/-- Risk score weights by category (`CATEGORY_WEIGHTS`). -/
def CATEGORY_WEIGHTS : List (String × Nat) :=
  [("Shell Execution", 50),
   ("Code Injection", 50),
   ("File System Write", 30),
   ("File System Delete", 30),
   ("File System Permissions", 25),
   ("Network Access", 20),
   ("Environment Access", 10)]

/-- Record lookup `CATEGORY_WEIGHTS[finding.category]`; `none` is the
JavaScript `undefined`. -/
def categoryWeight (c : String) : Option Nat :=
  (CATEGORY_WEIGHTS.find? (fun p => p.1 == c)).map Prod.snd

/-- Risk score weights by severity (`SEVERITY_WEIGHTS`). -/
def SEVERITY_WEIGHTS : RiskSeverity → Nat
  | .critical => 50
  | .high => 30
  | .medium => 15
  | .low => 5

/-- Dependency threat weights (`DEPENDENCY_SEVERITY_WEIGHTS`). -/
def DEPENDENCY_SEVERITY_WEIGHTS : RiskSeverity → Nat
  | .critical => 40
  | .high => 25
  | .medium => 15
  | .low => 5

/-- `calculateRiskScore` from `scorer.ts`: accumulate
`max(categoryWeight || 0, severityWeight)` over code findings, the dependency
severity weight over dependency findings, and cap the total at 100.
The JavaScript `categoryWeight || 0` turns the `undefined` of a missing
category into `0` (no table weight is `0`, so `||` and `getD` agree). -/
def calculateRiskScore (codeFindings : List Finding)
    (dependencyFindings : List DependencyFinding) : Nat :=
  min
    (dependencyFindings.foldl
      (fun score f => score + DEPENDENCY_SEVERITY_WEIGHTS f.severity)
      (codeFindings.foldl
        (fun score f =>
          score + max ((categoryWeight f.category).getD 0) (SEVERITY_WEIGHTS f.severity)) 0))
    100

/-- `getRiskLevel` from `scorer.ts`. -/
def getRiskLevel (score : Nat) : RiskLevel :=
  if score = 0 then .safe
  else if score ≤ 20 then .low
  else if score ≤ 50 then .medium
  else if score ≤ 75 then .high
  else .critical

/-- Rank of a risk level in the order safe < low < medium < high < critical,
used to state monotonicity of `getRiskLevel`. -/
def riskLevelRank : RiskLevel → Nat
  | .safe => 0
  | .low => 1
  | .medium => 2
  | .high => 3
  | .critical => 4

/-- Category weight exactly as the specification words it: a named table with
default `0` for a category not in the table. Written from the claim text, to be
compared with the implementation in `calculateRiskScore`. -/
def specCategoryWeight (c : String) : Nat :=
  if c = "Shell Execution" then 50
  else if c = "Code Injection" then 50
  else if c = "File System Write" then 30
  else if c = "File System Delete" then 30
  else if c = "File System Permissions" then 25
  else if c = "Network Access" then 20
  else if c = "Environment Access" then 10
  else 0

/-- Severity weight for code findings as the specification words it. -/
def specSeverityWeight : RiskSeverity → Nat
  | .critical => 50
  | .high => 30
  | .medium => 15
  | .low => 5

/-- Severity weight for dependency findings as the specification words it. -/
def specDependencyWeight : RiskSeverity → Nat
  | .critical => 40
  | .high => 25
  | .medium => 15
  | .low => 5

/-- Risk score as the specification words it:
`min(100, sum of per-finding contributions)`. -/
def riskScoreSpec (codeFindings : List Finding)
    (dependencyFindings : List DependencyFinding) : Nat :=
  min 100
    ((codeFindings.map
        (fun f => max (specCategoryWeight f.category) (specSeverityWeight f.severity))).sum
      + (dependencyFindings.map (fun f => specDependencyWeight f.severity)).sum)

/-! ## Severity normalizer (vulnerability scanner module) -/

/-- ASCII lower-casing of a character list. JavaScript `toLowerCase` agrees
with `Char.toLower` on the ASCII strings handled by this code. -/
def lowerChars (l : List Char) : List Char := l.map Char.toLower

/-- ASCII lower-casing of a string, modeling `String.prototype.toLowerCase`. -/
def lowerAscii (s : String) : String := String.mk (lowerChars s.data)

/-- `mapNpmSeverity`: map npm audit severity levels onto `RiskSeverity`; the
`switch` on `severity.toLowerCase()` becomes an equality chain with the same
cases and the same `default` branch. -/
def mapNpmSeverity (severity : String) : RiskSeverity :=
  let s := lowerAscii severity
  if s = "critical" then .critical
  else if s = "high" then .high
  else if s = "moderate" then .medium
  else if s = "medium" then .medium
  else if s = "low" then .low
  else if s = "info" then .low
  else .medium

/-- `mapCvssToSeverity`: map a CVSS score onto `RiskSeverity`. The JavaScript
number is an exact decimal here, modeled as `Rat`. -/
def mapCvssToSeverity (score : Rat) : RiskSeverity :=
  if score ≥ 9 then .critical
  else if score ≥ 7 then .high
  else if score ≥ 4 then .medium
  else .low

/-! ## JavaScript Map model

A JavaScript `Map` preserves insertion order; `set` on an existing key
overwrites the value at its original position, otherwise appends. Modeled as
an association list. -/

/-- Lookup in the association-list model of a JavaScript `Map`. -/
def mapGet {α : Type} (m : List (String × α)) (k : String) : Option α :=
  match m with
  | [] => none
  | (k1, v) :: rest => if k1 = k then some v else mapGet rest k

/-- The `Map.prototype.set` operation on the association-list model. -/
def mapSet {α : Type} (m : List (String × α)) (k : String) (v : α) : List (String × α) :=
  match m with
  | [] => [(k, v)]
  | (k1, v1) :: rest => if k1 = k then (k, v) :: rest else (k1, v1) :: mapSet rest k v

/-- JavaScript truthy choice `a || b` on an optional string: both `undefined`
and the empty string fall through to `b`. -/
def jsOrElse (a : Option String) (b : String) : String :=
  match a with
  | some s => if s = "" then b else s
  | none => b

/-- Deduplication key used inside `scanVulnerabilities`:
`name + ':' + (cveId || reason)` (the name is not lower-cased there). -/
def findingKey (f : DependencyFinding) : String :=
  f.name ++ ":" ++ jsOrElse f.cveId f.reason

/-- Merge step of `scanVulnerabilities`, applied to the two already-fetched
finding lists: OSV findings enter the map first, npm audit findings second and
therefore override an OSV finding with the same key; the returned list is the
map values in insertion order. -/
def scanVulnerabilitiesMerge (npmFindings osvFindings : List DependencyFinding) :
    List DependencyFinding :=
  let afterOsv := osvFindings.foldl (fun m f => mapSet m (findingKey f) f) []
  let merged := npmFindings.foldl (fun m f => mapSet m (findingKey f) f) afterOsv
  merged.map Prod.snd

/-- Example npm audit finding used to witness the merge theorem. -/
def npmExampleFinding : DependencyFinding :=
  { name := "lodash", severity := .high,
    reason := "Command injection in lodash",
    cveId := some "CVE-2021-23337", source := some .npmAudit }

/-- Example OSV finding with the same deduplication key as
`npmExampleFinding`. -/
def osvExampleFinding : DependencyFinding :=
  { name := "lodash", severity := .medium,
    reason := "Known vulnerability: CVE-2021-23337",
    cveId := some "CVE-2021-23337", source := some .osv }

/-! ## Dependency inspector (`inspectDependenciesAsync` and helpers) -/

/-- Threat database entry (`ThreatEntry` in `types.ts`). -/
structure ThreatEntry where
  name : String
  reason : String
  severity : RiskSeverity
deriving DecidableEq, Repr

/-- The static `THREAT_DATABASE` table of the dependency inspector. -/
def THREAT_DATABASE : List ThreatEntry :=
  [⟨"evil-package", "Known malicious package - contains cryptocurrency miner", .critical⟩,
   ⟨"crypto-miner", "Cryptocurrency mining malware", .critical⟩,
   ⟨"flatmap-stream", "Compromised package - event-stream incident", .critical⟩,
   ⟨"event-stream", "Compromised package version (historical)", .high⟩,
   ⟨"ua-parser-js", "Previously compromised - check version", .high⟩,
   ⟨"coa", "Previously compromised - check version", .high⟩,
   ⟨"rc", "Previously compromised - check version", .high⟩,
   ⟨"crossenv", "Typosquatting of cross-env - malicious package", .critical⟩,
   ⟨"cross-env.js", "Typosquatting of cross-env - malicious package", .critical⟩,
   ⟨"mongose", "Typosquatting of mongoose - malicious package", .critical⟩,
   ⟨"lodahs", "Typosquatting of lodash - malicious package", .critical⟩,
   ⟨"expresss", "Typosquatting of express - malicious package", .critical⟩,
   ⟨"hack-tool", "Potentially malicious hacking tool", .high⟩,
   ⟨"password-stealer", "Suspicious package name - potential credential theft", .critical⟩,
   ⟨"keylogger", "Suspicious package name - potential keylogging", .critical⟩,
   ⟨"backdoor", "Suspicious package name - potential backdoor", .critical⟩,
   ⟨"request", "Deprecated package - consider using node-fetch or axios", .low⟩,
   ⟨"node-uuid", "Deprecated - use uuid package instead", .low⟩]

/-- Checks whether `pat` is an initial segment of `l` (regex anchored match). -/
def startsWithChars : List Char → List Char → Bool
  | [], _ => true
  | _ :: _, [] => false
  | p :: ps, c :: cs => p == c && startsWithChars ps cs

/-- Checks whether `pat` occurs as a contiguous subsequence of `l`
(unanchored regex literal match). -/
def hasSubChars (pat : List Char) : List Char → Bool
  | [] => startsWithChars pat []
  | c :: rest => startsWithChars pat (c :: rest) || hasSubChars pat rest

/-- Case-insensitive substring test, modeling `/literal/i.test(s)`. -/
def containsCI (s sub : String) : Bool :=
  hasSubChars (lowerChars sub.data) (lowerChars s.data)

/-- In a JavaScript regex without the `s` flag, `.` matches everything except
the four line terminators. -/
def isNotLineTerm (c : Char) : Bool :=
  !(c == '\n' || c == '\r' || c == Char.ofNat 0x2028 || c == Char.ofNat 0x2029)

/-- Matcher for the regex `logger.*key` on an already lower-cased character
list: an occurrence of `logger` followed, without an intervening line
terminator, by `key`. -/
def loggerThenKey : List Char → Bool
  | [] => false
  | c :: rest =>
      (startsWithChars ([ 'l', 'o', 'g', 'g', 'e', 'r' ]) (c :: rest) &&
        hasSubChars ([ 'k', 'e', 'y' ]) (((c :: rest).drop 6).takeWhile isNotLineTerm)) ||
      loggerThenKey rest

/-- Case-insensitive test of `/keylog|logger.*key/i` second alternative. -/
def loggerKeyCI (s : String) : Bool := loggerThenKey (lowerChars s.data)

/-- One entry of `SUSPICIOUS_PATTERNS`: a regex test together with the reason
and severity it assigns. -/
structure SuspiciousRule where
  test : String → Bool
  reason : String
  severity : RiskSeverity

/-- The `SUSPICIOUS_PATTERNS` list; each regex is translated into the
equivalent decidable test on strings. -/
def SUSPICIOUS_PATTERNS : List SuspiciousRule :=
  [⟨fun s => startsWithChars ([ 'n', 'p', 'm', '-' ]) s.data,
    "Suspicious package prefix - potential typosquatting", .medium⟩,
   ⟨fun s => containsCI s "stealer" || containsCI s "steal",
    "Suspicious name - potential data theft", .high⟩,
   ⟨fun s => containsCI s "keylog" || loggerKeyCI s,
    "Suspicious name - potential keylogging", .high⟩,
   ⟨fun s => containsCI s "backdoor" || containsCI s "rootkit" || containsCI s "trojan",
    "Suspicious name - potential malware", .critical⟩,
   ⟨fun s => containsCI s "miner" || containsCI s "mining" || containsCI s "coin",
    "Suspicious name - potential cryptominer", .medium⟩]

/-- `checkDependency`: exact case-insensitive threat-table match first, then
the ordered suspicious-name rules, first match wins. -/
def checkDependency (depName : String) : Option DependencyFinding :=
  match THREAT_DATABASE.find? (fun t => lowerAscii t.name == lowerAscii depName) with
  | some threat =>
      some { name := depName, severity := threat.severity, reason := threat.reason,
             source := some .threatDb }
  | none =>
      match SUSPICIOUS_PATTERNS.find? (fun r => r.test depName) with
      | some r =>
          some { name := depName, severity := r.severity, reason := r.reason,
                 source := some .patternMatch }
      | none => none

/-- Numeric severity order used by `sortFindings` (`critical` first). -/
def severityOrderNum : RiskSeverity → Nat
  | .critical => 0
  | .high => 1
  | .medium => 2
  | .low => 3

/-- Stable insertion used to model the stable JavaScript `Array.prototype.sort`
with the severity comparator of `sortFindings`. -/
def insertBySeverity (f : DependencyFinding) :
    List DependencyFinding → List DependencyFinding
  | [] => [f]
  | g :: rest =>
      if severityOrderNum f.severity ≤ severityOrderNum g.severity then f :: g :: rest
      else g :: insertBySeverity f rest

/-- `sortFindings`: stable sort by severity rank ascending. -/
def sortFindings (findings : List DependencyFinding) : List DependencyFinding :=
  findings.foldr insertBySeverity []

/-- Deduplication key computed inside the vulnerability loop of
`inspectDependenciesAsync`: `name.toLowerCase() + ':' + (cveId || reason)`. -/
def vulnDedupKey (vuln : DependencyFinding) : String :=
  lowerAscii vuln.name ++ ":" ++ jsOrElse vuln.cveId vuln.reason

/-- Core of `inspectDependenciesAsync` after `package.json` has been read:
`dependencies` is the deduplicated name list from `getAllDependencies`, and
`scanOutcome` is the awaited result of `scanVulnerabilities` (`Except.error`
when it threw). The threat-database pass runs first; then the vulnerability
loop seeds `existingKeys` with `f.name.toLowerCase()` of the findings so far
and appends each vulnerability whose key is not yet in the set. -/
def inspectDependenciesAsyncCore (dependencies : List String)
    (scanOutcome : Except Unit (List DependencyFinding)) : List DependencyFinding :=
  let findings := dependencies.filterMap checkDependency
  match scanOutcome with
  | .error _ => sortFindings findings
  | .ok vulns =>
      let existingKeys := findings.map (fun f => lowerAscii f.name)
      let result := vulns.foldl
        (fun (acc : List DependencyFinding × List String) vuln =>
          let key := vulnDedupKey vuln
          if acc.2.contains key then acc
          else (acc.1 ++ [vuln], acc.2 ++ [key]))
        (findings, existingKeys)
      sortFindings result.1

/-- Identity key of the specification:
`name` lower-cased, then `':'`, then `cveId` if present, otherwise `reason`. -/
def claimIdentityKey (f : DependencyFinding) : String :=
  lowerAscii f.name ++ ":" ++ f.cveId.getD f.reason

/-- An OSV-derived finding for the package `lodahs` with no CVE id whose
summary coincides with the threat-table reason, so its identity key equals the
identity key of the threat-table finding for the same package. -/
def lodahsOsvFinding : DependencyFinding :=
  { name := "lodahs", severity := .critical,
    reason := "Typosquatting of lodash - malicious package",
    source := some .osv }

/-! ## OSV database client (`queryOsv`, `batchQueryOsv`)

The two HTTP calls are modeled by an environment: each call either throws
(network error or malformed JSON body), returns a non-success status, or
returns parsed JSON. Optional JSON fields (`vulns`, `results`) are `Option`s.
To state how many individual fallback queries are issued, `batchQueryOsv`
additionally returns the ordered log of the `(name, version)` pairs it passed
to `queryOsv`; the log is built exactly at the program points where the source
calls `queryOsv`. -/

/-- OSV vulnerability record. `batchQueryOsv` and `queryOsv` never look inside
a record, so only the identifier is modeled. -/
structure OsvVulnerability where
  id : String
deriving DecidableEq, Repr

/-- Outcome of one `fetch` call combined with reading its JSON body. -/
inductive FetchOutcome (α : Type) where
  | thrown : FetchOutcome α
  | notOk : FetchOutcome α
  | ok : α → FetchOutcome α
deriving DecidableEq

/-- Network environment of the OSV client: the batch endpoint result and the
single-query endpoint result per `(name, version)` pair. -/
structure OsvEnv where
  batch : FetchOutcome (Option (List (Option (List OsvVulnerability))))
  single : String → String → FetchOutcome (Option (List OsvVulnerability))

/-- `queryOsv`: a failed or non-success single query yields `[]` (the function
catches internally and never throws); a success yields `data.vulns || []`. -/
def queryOsv (env : OsvEnv) (name version : String) : List OsvVulnerability :=
  match env.single name version with
  | .thrown => []
  | .notOk => []
  | .ok data => data.getD []

/-- Result-map key `name + '@' + version` used by `batchQueryOsv`. -/
def pkgKey (p : String × String) : String := p.1 ++ "@" ++ p.2

/-- The individual-query fallback loop of `batchQueryOsv`: one `queryOsv` call
per package, storing only non-empty vulnerability lists. The source writes
this loop twice (the non-success branch without an inner try, the catch branch
with one); `queryOsv` never throws, so the two coincide. The second component
threads the log of issued individual queries. -/
def osvFallbackWithLog (env : OsvEnv) (pkgs : List (String × String))
    (acc : List (String × List OsvVulnerability) × List (String × String)) :
    List (String × List OsvVulnerability) × List (String × String) :=
  match pkgs with
  | [] => acc
  | p :: rest =>
      let vulns := queryOsv env p.1 p.2
      osvFallbackWithLog env rest
        ((if vulns.length > 0 then mapSet acc.1 (pkgKey p) vulns else acc.1), acc.2 ++ [p])

/-- Processing of a successful batch response: slot `i` belongs to package
`i`; a missing `vulns` field is `[]`; only non-empty lists are stored. -/
def processBatchResults (pkgs : List (String × String))
    (slots : List (Option (List OsvVulnerability))) :
    List (String × List OsvVulnerability) :=
  (pkgs.zip slots).foldl
    (fun acc ps =>
      let vulns := ps.2.getD []
      if vulns.length > 0 then mapSet acc (pkgKey ps.1) vulns else acc) []

/-- `batchQueryOsv`: one batch query; on non-success status or a thrown error,
one individual fallback query per package. A successful response with more
result slots than packages makes the source loop read a field of the missing
`packages[i]` and throw — but only on reaching an extra slot with a non-empty
vulnerability list, since an empty slot skips the access; the catch handler
then runs the individual fallback on top of the partially filled map. A
missing `results` field yields an empty map. -/
def batchQueryOsv (env : OsvEnv) (packages : List (String × String)) :
    List (String × List OsvVulnerability) × List (String × String) :=
  match env.batch with
  | .notOk => osvFallbackWithLog env packages ([], [])
  | .thrown => osvFallbackWithLog env packages ([], [])
  | .ok none => ([], [])
  | .ok (some slots) =>
      let processed := processBatchResults packages slots
      if (slots.drop packages.length).any (fun slot => (slot.getD []).length > 0)
      then osvFallbackWithLog env packages (processed, [])
      else (processed, [])

/-- Example OSV network environment whose batch call throws, whose individual
query succeeds for package `a` and fails for package `b`. -/
def osvExampleEnv : OsvEnv :=
  { batch := .thrown,
    single := fun name _ =>
      if name = "a" then .ok (some [⟨"OSV-2023-1"⟩]) else .thrown }

/-! ## Lock-file and manifest parsing (`parseLockFile`, `parsePackageJson`) -/

/-- Package reference `{name, version, isDev}` produced by the parsers. -/
structure PackageRef where
  name : String
  version : String
  isDev : Bool
deriving DecidableEq, Repr

/-- Character class `[\^~>=<]` of the version-range cleaning regex. -/
def isRangeOp (c : Char) : Bool :=
  c == '^' || c == '~' || c == '>' || c == '=' || c == '<'

/-- The replacement `versionRange.replace(/^[\^~>=<]*/g, '')`: the regex is
anchored, so it strips exactly the leading run of range-operator characters. -/
def stripRangeOps (s : String) : String := String.mk (s.data.dropWhile isRangeOp)

/-- The projection `.split(' ')[0]`: the first space-delimited token, which is
everything before the first space. -/
def firstSpaceToken (s : String) : String :=
  String.mk (s.data.takeWhile (fun c => !(c == ' ')))

/-- Version cleaning applied by `parsePackageJson` to each declared range. -/
def cleanVersion (versionRange : String) : String :=
  firstSpaceToken (stripRangeOps versionRange)

/-- The four dependency sections of a parsed `package.json`; a missing section
is `none`. JavaScript object entries are ordered, hence association lists. -/
structure PackageManifest where
  dependencies : Option (List (String × String)) := none
  devDependencies : Option (List (String × String)) := none
  peerDependencies : Option (List (String × String)) := none
  optionalDependencies : Option (List (String × String)) := none

/-- The local `extractDeps` helper of `parsePackageJson`. -/
def extractManifestDeps (deps : Option (List (String × String))) (isDev : Bool) :
    List PackageRef :=
  match deps with
  | none => []
  | some l => l.map (fun nr => ⟨nr.1, cleanVersion nr.2, isDev⟩)

/-- Body of `parsePackageJson` on a successfully parsed manifest: the four
sections in source order, `devDependencies` marked as dev. -/
def parsePackageJsonDeps (m : PackageManifest) : List PackageRef :=
  extractManifestDeps m.dependencies false
    ++ extractManifestDeps m.devDependencies true
    ++ extractManifestDeps m.peerDependencies false
    ++ extractManifestDeps m.optionalDependencies false

/-- `parsePackageJson`: a missing or unparsable `package.json` is `none` and
yields the empty list (the source returns the empty array in both cases). -/
def parsePackageJson (manifest : Option PackageManifest) : List PackageRef :=
  match manifest with
  | none => []
  | some m => parsePackageJsonDeps m

/-- Entry value of the flat (lockfileVersion 2 and later) `packages` map. The
JavaScript `info.dev || false` collapses a missing flag to `false`. -/
structure FlatPkgInfo where
  version : Option String := none
  dev : Bool := false
deriving DecidableEq, Repr

/-- Strips a leading `node_modules/` (the anchored first replacement). -/
def dropNodeModulesLead (l : List Char) : List Char :=
  if startsWithChars ("node_modules/".data) l then l.drop 13 else l

/-- Returns the suffix after the last occurrence of `node_modules/`, or `none`
when there is no occurrence (lock-file path keys contain no line
terminators, so the greedy `.*node_modules\/` reaches the last occurrence). -/
def afterLastNodeModules : List Char → Option (List Char)
  | [] => none
  | c :: rest =>
      match afterLastNodeModules rest with
      | some s => some s
      | none =>
          if startsWithChars ("node_modules/".data) (c :: rest)
          then some ((c :: rest).drop 13)
          else none

/-- The name cleaning
`pkgPath.replace(/^node_modules\//, '').replace(/.*node_modules\//, '')`. -/
def stripNodeModulesPath (p : String) : String :=
  let l1 := dropNodeModulesLead p.data
  match afterLastNodeModules l1 with
  | some s => String.mk s
  | none => String.mk l1

/-- Flat-schema branch of `parseLockFile`: skip the root entry (empty path),
clean the path into a name, and keep entries with a truthy version and name. -/
def parseFlatPackages (entries : List (String × FlatPkgInfo)) : List PackageRef :=
  entries.foldl
    (fun acc e =>
      if e.1 = "" then acc
      else
        let name := stripNodeModulesPath e.1
        match e.2.version with
        | some v => if v ≠ "" ∧ name ≠ "" then acc ++ [⟨name, v, e.2.dev⟩] else acc
        | none => acc)
    []

/-- Nested (lockfileVersion 1) dependency entry: a version, a dev flag
(`info.dev || isDev` collapses a missing flag to `false`) and a nested
dependency map. -/
inductive LockDep where
  | mk (version : Option String) (dev : Bool) (children : List (String × LockDep))

/-- The recursive `extractDeps` helper of the nested-schema branch: push the
entry itself when its version is truthy, then recurse into its children with
the flag `info.dev || isDev`, then continue with the remaining entries. -/
def extractDeps : List (String × LockDep) → Bool → List PackageRef
  | [], _ => []
  | (name, LockDep.mk ver dev children) :: rest, isDev =>
      (match ver with
       | some v => if v ≠ "" then [⟨name, v, dev || isDev⟩] else []
       | none => []) ++
      extractDeps children (dev || isDev) ++ extractDeps rest isDev

/-- Parsed lock-file JSON: a flat `packages` map (checked first) or a nested
`dependencies` map. -/
structure LockData where
  packages : Option (List (String × FlatPkgInfo)) := none
  dependencies : Option (List (String × LockDep)) := none

/-- Branch selection of `parseLockFile` on parsed lock data. -/
def parseLockFileData (lockData : LockData) : List PackageRef :=
  match lockData.packages with
  | some entries => parseFlatPackages entries
  | none =>
      match lockData.dependencies with
      | some deps => extractDeps deps false
      | none => []

/-- File-system environment of `parseLockFile`: whether `package-lock.json`
exists, and the outcome of reading and JSON-parsing it. -/
structure LockFileEnv where
  lockFileExists : Bool
  parseOutcome : Except Unit LockData

/-- `parseLockFile`: missing file or parse failure yields the empty list. -/
def parseLockFile (env : LockFileEnv) : List PackageRef :=
  if !env.lockFileExists then []
  else
    match env.parseOutcome with
    | .error _ => []
    | .ok d => parseLockFileData d

/-! ## Audit runner (`runNpmAudit`) -/

/-- Detailed advisory entry of the npm audit `via` array. Only the fields the
code reads are modeled: `title`, `url` and the CVSS score (`cvss?.score`). -/
structure NpmAuditVia where
  title : String
  url : Option String := none
  cvss : Option Rat := none
deriving DecidableEq, Repr

/-- The `fixAvailable` field: either a boolean flag or a structured
recommended-upgrade record. -/
inductive NpmFixAvailable where
  | flag (b : Bool)
  | upgrade (name : String) (version : String) (isSemVerMajor : Bool)
deriving DecidableEq, Repr

/-- One vulnerable-package record of the npm audit report; `via` entries are
either plain package-name strings or detailed advisory objects. -/
structure NpmAuditVulnerability where
  severity : String
  via : List (String ⊕ NpmAuditVia)
  range : String
  fixAvailable : NpmFixAvailable
deriving DecidableEq, Repr

/-- Parsed npm audit JSON report; a report without a `vulnerabilities` field
is `none` (the loop is skipped). -/
structure NpmAuditResult where
  vulnerabilities : Option (List (String × NpmAuditVulnerability)) := none
deriving DecidableEq, Repr

/-- Matches the regex `CVE-\d{4}-\d+` anchored at the head of the list:
literal `CVE-`, exactly four digits, `-`, one or more digits (maximal). -/
def cveMatchAt (l : List Char) : Option (List Char) :=
  match l with
  | 'C' :: 'V' :: 'E' :: '-' :: rest =>
      let d4 := rest.take 4
      if d4.length = 4 && d4.all Char.isDigit then
        match rest.drop 4 with
        | '-' :: rest2 =>
            let ds := rest2.takeWhile Char.isDigit
            if ds.length > 0 then some (([ 'C', 'V', 'E', '-' ] ++ d4) ++ '-' :: ds)
            else none
        | _ => none
      else none
  | _ => none

/-- First match of `CVE-\d{4}-\d+`, scanning positions left to right. -/
def findCveChars : List Char → Option (List Char)
  | [] => none
  | c :: rest =>
      match cveMatchAt (c :: rest) with
      | some m => some m
      | none => findCveChars rest

/-- `url.match(/CVE-\d{4}-\d+/)` reduced to its first capture. -/
def findCve (s : String) : Option String := (findCveChars s.data).map String.mk

/-- `String.prototype.includes` for a literal search string. -/
def containsSub (s sub : String) : Bool := hasSubChars sub.data s.data

/-- Per-package finding construction of `runNpmAudit`: first detailed `via`
entry supplies title, url and CVSS; the CVE id is extracted from the url; fix
guidance comes from the structured record or the boolean flag. -/
def processAuditVulnerability (pkgName : String) (vuln : NpmAuditVulnerability) :
    DependencyFinding :=
  let viaDetails := vuln.via.findSome?
    (fun v => match v with | .inl _ => none | .inr d => some d)
  let reason := match viaDetails with
    | some d => if d.title = "" then "Vulnerable package detected" else d.title
    | none => "Vulnerable package detected"
  let url := viaDetails.bind (fun d => d.url)
  let cvssScore := viaDetails.bind (fun d => d.cvss)
  let cveId := match viaDetails with
    | some d =>
        match d.url with
        | some u => if u ≠ "" ∧ containsSub u "CVE-" = true then findCve u else none
        | none => none
    | none => none
  let fixAvailable := match vuln.fixAvailable with
    | .upgrade n v _ => some (n ++ "@" ++ v)
    | .flag true => some "Available (run npm audit fix)"
    | .flag false => none
  { name := pkgName, severity := mapNpmSeverity vuln.severity, reason := reason,
    vulnerableVersions := some vuln.range, cveId := cveId, cvssScore := cvssScore,
    source := some .npmAudit, fixAvailable := fixAvailable, url := url }

/-- The `Object.entries(auditResult.vulnerabilities)` loop. -/
def processAuditResult (audit : NpmAuditResult) : List DependencyFinding :=
  match audit.vulnerabilities with
  | none => []
  | some entries =>
      entries.foldl (fun acc e => acc ++ [processAuditVulnerability e.1 e.2]) []

/-- The JavaScript guard `!result || result.trim() === ''`: true exactly when
the audit output consists of whitespace only. -/
def jsTrimEmpty (s : String) : Bool := s.data.all Char.isWhitespace

/-- External-world environment of `runNpmAudit`: which files exist, and the
outcome of the lock-file synthesis subprocess, of the audit subprocess
(`Except.error` for a thrown execution error such as a timeout) and of
`JSON.parse` on the audit output. -/
structure AuditEnv where
  packageJsonExists : Bool
  packageLockExists : Bool
  yarnLockExists : Bool
  installOutcome : Except Unit Unit
  auditOutcome : Except Unit String
  parseAudit : String → Except Unit NpmAuditResult

/-- `runNpmAudit`: returns the empty list when `package.json` is missing, when
lock-file synthesis fails, and when the audit invocation or the JSON parse of
its report throws (both try/catch handlers of the source return the findings
accumulated so far, which are none at those points). The function is total:
every failure of the modeled pipeline is caught. -/
def runNpmAudit (env : AuditEnv) : List DependencyFinding :=
  if !env.packageJsonExists then []
  else
    let hasLockFile := env.packageLockExists || env.yarnLockExists
    match (if hasLockFile then Except.ok () else env.installOutcome) with
    | .error _ => []
    | .ok _ =>
        match env.auditOutcome with
        | .error _ => []
        | .ok result =>
            if jsTrimEmpty result then []
            else
              match env.parseAudit result with
              | .error _ => []
              | .ok audit => processAuditResult audit

end SkillGuard

namespace SkillGuard

/-! ## Theorems -/

theorem foldl_add_eq_sum {α : Type} (g : α → Nat) (l : List α) (n : Nat) :
    l.foldl (fun a x => a + g x) n = n + (l.map g).sum := by
  induction l generalizing n with
  | nil => simp
  | cons x xs ih => simp [ih, Nat.add_assoc]

theorem categoryWeight_getD_eq_spec (c : String) :
    (categoryWeight c).getD 0 = specCategoryWeight c := by
  by_cases h1 : c = "Shell Execution"
  · subst h1; rfl
  by_cases h2 : c = "Code Injection"
  · subst h2; rfl
  by_cases h3 : c = "File System Write"
  · subst h3; rfl
  by_cases h4 : c = "File System Delete"
  · subst h4; rfl
  by_cases h5 : c = "File System Permissions"
  · subst h5; rfl
  by_cases h6 : c = "Network Access"
  · subst h6; rfl
  by_cases h7 : c = "Environment Access"
  · subst h7; rfl
  have e1 : ("Shell Execution" == c) = false := beq_eq_false_iff_ne.mpr (Ne.symm h1)
  have e2 : ("Code Injection" == c) = false := beq_eq_false_iff_ne.mpr (Ne.symm h2)
  have e3 : ("File System Write" == c) = false := beq_eq_false_iff_ne.mpr (Ne.symm h3)
  have e4 : ("File System Delete" == c) = false := beq_eq_false_iff_ne.mpr (Ne.symm h4)
  have e5 : ("File System Permissions" == c) = false := beq_eq_false_iff_ne.mpr (Ne.symm h5)
  have e6 : ("Network Access" == c) = false := beq_eq_false_iff_ne.mpr (Ne.symm h6)
  have e7 : ("Environment Access" == c) = false := beq_eq_false_iff_ne.mpr (Ne.symm h7)
  simp [categoryWeight, CATEGORY_WEIGHTS, List.find?, e1, e2, e3, e4, e5, e6, e7,
    specCategoryWeight, h1, h2, h3, h4, h5, h6, h7]

/-- C2: for every pair of finding lists, `calculateRiskScore` equals
`min(100, S)` where `S` sums `max(categoryWeight, severityWeight)` over code
findings (with the category table defaulting to 0) and the dependency severity
weight over dependency findings, with the weight tables of the specification. -/
theorem calculateRiskScore_eq_spec (cf : List Finding) (df : List DependencyFinding) :
    calculateRiskScore cf df = riskScoreSpec cf df := by
  unfold calculateRiskScore riskScoreSpec
  rw [foldl_add_eq_sum, foldl_add_eq_sum]
  rw [Nat.zero_add]
  have hc : (cf.map
      (fun f => max ((categoryWeight f.category).getD 0) (SEVERITY_WEIGHTS f.severity))).sum
      = (cf.map (fun f => max (specCategoryWeight f.category) (specSeverityWeight f.severity))).sum := by
    congr 1
    apply List.map_congr_left
    intro f _
    rw [categoryWeight_getD_eq_spec]
    cases f.severity <;> rfl
  have hd : (df.map (fun f => DEPENDENCY_SEVERITY_WEIGHTS f.severity)).sum
      = (df.map (fun f => specDependencyWeight f.severity)).sum := rfl
  rw [hc, hd]
  exact Nat.min_comm _ _

theorem riskLevelRank_getRiskLevel (n : Nat) :
    riskLevelRank (getRiskLevel n) =
      if n = 0 then 0 else if n ≤ 20 then 1 else if n ≤ 50 then 2
      else if n ≤ 75 then 3 else 4 := by
  unfold getRiskLevel
  split_ifs <;> rfl

/-- C3: `calculateRiskScore` always lies in `[0, 100]`, and `getRiskLevel` is a
total monotone function of the score that maps `0` to safe, `1..20` to low,
`21..50` to medium, `51..75` to high and everything from `76` up (in particular
`76..100`) to critical, matching the table at every boundary inclusively. -/
theorem riskScore_bounded_and_riskLevel_monotone :
    (∀ (cf : List Finding) (df : List DependencyFinding),
        calculateRiskScore cf df ≤ 100) ∧
    (∀ a b : Nat, a ≤ b →
        riskLevelRank (getRiskLevel a) ≤ riskLevelRank (getRiskLevel b)) ∧
    (getRiskLevel 0 = .safe ∧ getRiskLevel 1 = .low ∧ getRiskLevel 20 = .low ∧
      getRiskLevel 21 = .medium ∧ getRiskLevel 50 = .medium ∧
      getRiskLevel 51 = .high ∧ getRiskLevel 75 = .high ∧
      getRiskLevel 76 = .critical ∧ getRiskLevel 100 = .critical) ∧
    (∀ s : Nat,
      (s = 0 → getRiskLevel s = .safe) ∧
      (1 ≤ s ∧ s ≤ 20 → getRiskLevel s = .low) ∧
      (21 ≤ s ∧ s ≤ 50 → getRiskLevel s = .medium) ∧
      (51 ≤ s ∧ s ≤ 75 → getRiskLevel s = .high) ∧
      (76 ≤ s → getRiskLevel s = .critical)) := by
  refine ⟨?_, ?_, ?_, ?_⟩
  · intro cf df
    unfold calculateRiskScore
    exact min_le_right _ _
  · intro a b hab
    rw [riskLevelRank_getRiskLevel, riskLevelRank_getRiskLevel]
    split_ifs <;> omega
  · refine ⟨rfl, rfl, rfl, rfl, rfl, rfl, rfl, rfl, rfl⟩
  · intro s
    refine ⟨?_, ?_, ?_, ?_, ?_⟩ <;> intro h <;> unfold getRiskLevel <;> split_ifs <;>
      first | rfl | omega

/-- Witness for C3: the monotonicity and interval parts applied at concrete
scores. -/
theorem riskScore_bounded_and_riskLevel_monotone_witness :
    riskLevelRank (getRiskLevel 5) ≤ riskLevelRank (getRiskLevel 80) ∧
    getRiskLevel 30 = .medium :=
  ⟨riskScore_bounded_and_riskLevel_monotone.2.1 5 80 (by decide),
   (riskScore_bounded_and_riskLevel_monotone.2.2.2 30).2.2.1 (by decide)⟩

/-- C10: appending one more code finding or one more dependency finding never
decreases `calculateRiskScore`; every finding contributes a strictly positive
amount and the final cap at 100 is monotone. -/
theorem calculateRiskScore_monotone_append :
    (∀ (cf : List Finding) (df : List DependencyFinding) (f : Finding),
        calculateRiskScore cf df ≤ calculateRiskScore (cf ++ [f]) df) ∧
    (∀ (cf : List Finding) (df : List DependencyFinding) (g : DependencyFinding),
        calculateRiskScore cf df ≤ calculateRiskScore cf (df ++ [g])) ∧
    (∀ f : Finding,
        0 < max ((categoryWeight f.category).getD 0) (SEVERITY_WEIGHTS f.severity)) ∧
    (∀ g : DependencyFinding, 0 < DEPENDENCY_SEVERITY_WEIGHTS g.severity) := by
  have hsev : ∀ s : RiskSeverity, 0 < SEVERITY_WEIGHTS s := by
    intro s; cases s <;> decide
  have hdep : ∀ s : RiskSeverity, 0 < DEPENDENCY_SEVERITY_WEIGHTS s := by
    intro s; cases s <;> decide
  refine ⟨?_, ?_, ?_, ?_⟩
  · intro cf df f
    unfold calculateRiskScore
    simp only [foldl_add_eq_sum]
    simp only [List.map_append, List.sum_append, List.map_cons, List.map_nil,
      List.sum_cons, List.sum_nil]
    apply min_le_min _ (Nat.le_refl 100)
    omega
  · intro cf df g
    unfold calculateRiskScore
    simp only [foldl_add_eq_sum]
    simp only [List.map_append, List.sum_append, List.map_cons, List.map_nil,
      List.sum_cons, List.sum_nil]
    apply min_le_min _ (Nat.le_refl 100)
    omega
  · intro f
    exact Nat.lt_of_lt_of_le (hsev f.severity) (Nat.le_max_right _ _)
  · intro g
    exact hdep g.severity

/-- C4: `mapNpmSeverity` maps, case-insensitively, critical to critical, high
to high, moderate and medium to medium, low and info to low, and every other
string to medium; `mapCvssToSeverity` returns critical for scores at least 9,
high on `[7, 9)`, medium on `[4, 7)` and low below 4. -/
theorem severity_normalization_contract :
    (∀ s : String,
      (lowerAscii s = "critical" → mapNpmSeverity s = .critical) ∧
      (lowerAscii s = "high" → mapNpmSeverity s = .high) ∧
      (lowerAscii s = "moderate" → mapNpmSeverity s = .medium) ∧
      (lowerAscii s = "medium" → mapNpmSeverity s = .medium) ∧
      (lowerAscii s = "low" → mapNpmSeverity s = .low) ∧
      (lowerAscii s = "info" → mapNpmSeverity s = .low) ∧
      (lowerAscii s ≠ "critical" → lowerAscii s ≠ "high" → lowerAscii s ≠ "moderate" →
        lowerAscii s ≠ "medium" → lowerAscii s ≠ "low" → lowerAscii s ≠ "info" →
        mapNpmSeverity s = .medium)) ∧
    (∀ q : Rat,
      (9 ≤ q → mapCvssToSeverity q = .critical) ∧
      (7 ≤ q → q < 9 → mapCvssToSeverity q = .high) ∧
      (4 ≤ q → q < 7 → mapCvssToSeverity q = .medium) ∧
      (q < 4 → mapCvssToSeverity q = .low)) := by
  constructor
  · intro s
    exact ⟨fun h => by simp [mapNpmSeverity, h],
      fun h => by simp [mapNpmSeverity, h],
      fun h => by simp [mapNpmSeverity, h],
      fun h => by simp [mapNpmSeverity, h],
      fun h => by simp [mapNpmSeverity, h],
      fun h => by simp [mapNpmSeverity, h],
      fun h1 h2 h3 h4 h5 h6 => by simp [mapNpmSeverity, h1, h2, h3, h4, h5, h6]⟩
  · intro q
    refine ⟨?_, ?_, ?_, ?_⟩
    · intro h
      simp [mapCvssToSeverity, ge_iff_le, h]
    · intro h1 h2
      unfold mapCvssToSeverity
      split_ifs <;> first | rfl | linarith
    · intro h1 h2
      unfold mapCvssToSeverity
      split_ifs <;> first | rfl | linarith
    · intro h
      unfold mapCvssToSeverity
      split_ifs <;> first | rfl | linarith

/-- Witness for C4: the recognized string CRITICAL, an unrecognized string, and
concrete CVSS scores in each band. -/
theorem severity_normalization_contract_witness :
    mapNpmSeverity "CRITICAL" = .critical ∧
    mapNpmSeverity "serious" = .medium ∧
    mapCvssToSeverity (19 / 2) = .critical ∧
    mapCvssToSeverity 8 = .high ∧
    mapCvssToSeverity 5 = .medium ∧
    mapCvssToSeverity 1 = .low :=
  ⟨(severity_normalization_contract.1 "CRITICAL").1 (by decide),
   (severity_normalization_contract.1 "serious").2.2.2.2.2.2
     (by decide) (by decide) (by decide) (by decide) (by decide) (by decide),
   (severity_normalization_contract.2 (19 / 2)).1 (by norm_num),
   (severity_normalization_contract.2 8).2.1 (by norm_num) (by norm_num),
   (severity_normalization_contract.2 5).2.2.1 (by norm_num) (by norm_num),
   (severity_normalization_contract.2 1).2.2.2 (by norm_num)⟩

theorem mapGet_mapSet_self {α : Type} (m : List (String × α)) (k : String) (v : α) :
    mapGet (mapSet m k v) k = some v := by
  induction m with
  | nil => simp [mapSet, mapGet]
  | cons p rest ih =>
    obtain ⟨k1, v1⟩ := p
    by_cases h : k1 = k
    · simp [mapSet, h, mapGet]
    · simp [mapSet, h, mapGet, ih]

theorem mapGet_mapSet_ne {α : Type} (m : List (String × α)) (k k' : String) (v : α)
    (h : k ≠ k') : mapGet (mapSet m k v) k' = mapGet m k' := by
  induction m with
  | nil => simp [mapSet, mapGet, h]
  | cons p rest ih =>
    obtain ⟨k1, v1⟩ := p
    by_cases h1 : k1 = k
    · subst h1
      simp [mapSet, mapGet, h]
    · simp [mapSet, h1, mapGet, ih]

theorem mem_mapSet {α : Type} (m : List (String × α)) (k : String) (v : α) (p : String × α)
    (hp : p ∈ mapSet m k v) : p ∈ m ∨ p = (k, v) := by
  induction m with
  | nil => simp [mapSet] at hp; simp [hp]
  | cons q rest ih =>
    obtain ⟨k1, v1⟩ := q
    by_cases h : k1 = k
    · simp [mapSet, h] at hp
      rcases hp with hp | hp
      · right; simp [hp]
      · left; simp [hp]
    · simp [mapSet, h] at hp
      rcases hp with hp | hp
      · left; simp [hp]
      · rcases ih hp with h2 | h2
        · left; simp [h2]
        · right; exact h2

theorem mem_of_mapGet {α : Type} (m : List (String × α)) (k : String) (v : α)
    (h : mapGet m k = some v) : (k, v) ∈ m := by
  induction m with
  | nil => simp [mapGet] at h
  | cons p rest ih =>
    obtain ⟨k1, v1⟩ := p
    by_cases h1 : k1 = k
    · subst h1
      simp [mapGet] at h
      simp [h]
    · simp [mapGet, h1] at h
      simp [ih h]

theorem keys_mapSet {α : Type} (m : List (String × α)) (k : String) (v : α) :
    (mapSet m k v).map Prod.fst = m.map Prod.fst ∨
    (mapSet m k v).map Prod.fst = m.map Prod.fst ++ [k] := by
  induction m with
  | nil => right; simp [mapSet]
  | cons p rest ih =>
    obtain ⟨k1, v1⟩ := p
    by_cases h : k1 = k
    · left; simp [mapSet, h]
    · rcases ih with h2 | h2
      · left; simp [mapSet, h, h2]
      · right; simp [mapSet, h, h2]

theorem mapGet_of_keys_nodup {α : Type} (m : List (String × α)) (k : String) (v : α)
    (hnd : (m.map Prod.fst).Nodup) (hm : (k, v) ∈ m) : mapGet m k = some v := by
  induction m with
  | nil => simp at hm
  | cons p rest ih =>
    obtain ⟨k1, v1⟩ := p
    simp at hm hnd
    rcases hm with ⟨h1, h2⟩ | hm
    · subst h1; subst h2
      simp [mapGet]
    · have hk1 : k1 ≠ k := by
        intro h
        subst h
        exact hnd.1 v hm
      simp [mapGet, hk1]
      exact ih hnd.2 hm

theorem nodup_keys_mapSet {α : Type} (m : List (String × α)) (k : String) (v : α)
    (hnd : (m.map Prod.fst).Nodup) : ((mapSet m k v).map Prod.fst).Nodup := by
  induction m with
  | nil => simp [mapSet]
  | cons p rest ih =>
    obtain ⟨k1, v1⟩ := p
    simp at hnd
    by_cases h : k1 = k
    · subst h
      simpa [mapSet] using hnd
    · simp [mapSet, h]
      refine ⟨?_, ih hnd.2⟩
      intro b hb
      rcases mem_mapSet rest k v (k1, b) hb with h2 | h2
      · exact hnd.1 b h2
      · exact h (congrArg Prod.fst h2)

theorem mapGet_foldl_of_no_key (l : List DependencyFinding)
    (m : List (String × DependencyFinding)) (k : String)
    (h : ∀ n ∈ l, findingKey n ≠ k) :
    mapGet (l.foldl (fun m f => mapSet m (findingKey f) f) m) k = mapGet m k := by
  induction l generalizing m with
  | nil => rfl
  | cons f rest ih =>
    simp only [List.foldl_cons]
    rw [ih _ (fun n hn => h n (by simp [hn]))]
    exact mapGet_mapSet_ne _ _ _ _ (h f (by simp))

theorem entry_of_mem_foldl (l : List DependencyFinding)
    (m : List (String × DependencyFinding)) (p : String × DependencyFinding)
    (hp : p ∈ l.foldl (fun m f => mapSet m (findingKey f) f) m) :
    p ∈ m ∨ (p.1 = findingKey p.2 ∧ p.2 ∈ l) := by
  induction l generalizing m with
  | nil => exact Or.inl hp
  | cons f rest ih =>
    simp only [List.foldl_cons] at hp
    rcases ih _ hp with h2 | h2
    · rcases mem_mapSet m (findingKey f) f p h2 with h3 | h3
      · exact Or.inl h3
      · subst h3
        exact Or.inr ⟨rfl, by simp⟩
    · exact Or.inr ⟨h2.1, by simp [h2.2]⟩

theorem nodup_keys_foldl (l : List DependencyFinding)
    (m : List (String × DependencyFinding))
    (hnd : (m.map Prod.fst).Nodup) :
    (((l.foldl (fun m f => mapSet m (findingKey f) f) m)).map Prod.fst).Nodup := by
  induction l generalizing m with
  | nil => exact hnd
  | cons f rest ih =>
    simp only [List.foldl_cons]
    exact ih _ (nodup_keys_mapSet _ _ _ hnd)

theorem mapGet_foldl_of_key_mem (l : List DependencyFinding)
    (m : List (String × DependencyFinding)) (k : String)
    (hex : ∃ n ∈ l, findingKey n = k) :
    ∃ f, f ∈ l ∧ findingKey f = k ∧
      mapGet (l.foldl (fun m f => mapSet m (findingKey f) f) m) k = some f := by
  induction l generalizing m with
  | nil => simp at hex
  | cons f0 rest ih =>
    by_cases hrest : ∃ n ∈ rest, findingKey n = k
    · obtain ⟨f, hf, hk, hget⟩ := ih _ hrest
      exact ⟨f, by simp [hf], hk, by simpa using hget⟩
    · have hk0 : findingKey f0 = k := by
        obtain ⟨n, hn, hk⟩ := hex
        rcases List.mem_cons.mp hn with h | h
        · exact h ▸ hk
        · exact absurd ⟨n, h, hk⟩ hrest
      refine ⟨f0, by simp, hk0, ?_⟩
      simp only [List.foldl_cons]
      rw [mapGet_foldl_of_no_key _ _ _ (fun n hn hkn => hrest ⟨n, hn, hkn⟩)]
      rw [hk0]
      exact mapGet_mapSet_self _ _ _

/-- C6: in the merge step of `scanVulnerabilities`, when an npm audit finding
and an OSV finding share the same deduplication key
`name + ':' + (cveId || reason)`, the npm-audit-derived finding is the one
present in the returned list: some npm finding with that key is in the output,
and the OSV finding itself is not (unless it coincides with an npm finding). -/
theorem scanVulnerabilities_npm_overrides_osv
    (npm osv : List DependencyFinding) (n o : DependencyFinding)
    (hn : n ∈ npm) (ho : o ∈ osv) (hk : findingKey n = findingKey o) :
    (∃ f, f ∈ npm ∧ findingKey f = findingKey o ∧
        f ∈ scanVulnerabilitiesMerge npm osv) ∧
    (o ∉ npm → o ∉ scanVulnerabilitiesMerge npm osv) := by
  unfold scanVulnerabilitiesMerge
  set afterOsv := osv.foldl (fun m f => mapSet m (findingKey f) f) [] with hosv
  set merged := npm.foldl (fun m f => mapSet m (findingKey f) f) afterOsv with hmerged
  obtain ⟨f, hf, hfk, hget⟩ :=
    mapGet_foldl_of_key_mem npm afterOsv (findingKey o) ⟨n, hn, hk⟩
  have hndk : (merged.map Prod.fst).Nodup := by
    rw [hmerged, hosv]
    exact nodup_keys_foldl _ _ (nodup_keys_foldl _ _ (by simp))
  constructor
  · exact ⟨f, hf, hfk, List.mem_map_of_mem Prod.snd (mem_of_mapGet _ _ _ hget)⟩
  · intro honpm hmem
    obtain ⟨⟨k1, o1⟩, hp, ho1⟩ := List.mem_map.mp hmem
    have ho1' : o1 = o := ho1
    rw [ho1'] at hp
    have hk1 : k1 = findingKey o := by
      rcases entry_of_mem_foldl npm afterOsv (k1, o) hp with h2 | h2
      · rcases entry_of_mem_foldl osv [] (k1, o) h2 with h3 | h3
        · simp at h3
        · exact h3.1
      · exact h2.1
    subst hk1
    have := mapGet_of_keys_nodup merged (findingKey o) o hndk hp
    rw [this] at hget
    cases hget
    exact honpm hf

/-- Witness for C6: a concrete npm audit finding and a concrete OSV finding
with the same key `lodash:CVE-2021-23337`. -/
theorem scanVulnerabilities_npm_overrides_osv_witness :
    (∃ f, f ∈ [npmExampleFinding] ∧ findingKey f = findingKey osvExampleFinding ∧
        f ∈ scanVulnerabilitiesMerge [npmExampleFinding] [osvExampleFinding]) ∧
    (osvExampleFinding ∉ [npmExampleFinding] →
        osvExampleFinding ∉ scanVulnerabilitiesMerge [npmExampleFinding] [osvExampleFinding]) :=
  scanVulnerabilities_npm_overrides_osv [npmExampleFinding] [osvExampleFinding]
    npmExampleFinding osvExampleFinding (by decide) (by decide) (by decide)

/-- C1 fails on the code: with dependency list `["lodahs"]` and a successful
vulnerability scan returning one OSV finding whose identity key coincides with
the threat-table finding for `lodahs`, the output of
`inspectDependenciesAsync` contains two findings with the same identity key.
The dedup set is seeded with `f.name.toLowerCase()` alone while vulnerability
keys have the form `name:cveId-or-reason`, so the threat-database pass never
suppresses a vulnerability, contradicting the inline comment of the loop. -/
theorem inspect_dedup_duplicate_identity_key :
    ((inspectDependenciesAsyncCore ["lodahs"] (.ok [lodahsOsvFinding])).map claimIdentityKey
      = ["lodahs:Typosquatting of lodash - malicious package",
         "lodahs:Typosquatting of lodash - malicious package"]) ∧
    ¬ ((inspectDependenciesAsyncCore ["lodahs"]
          (.ok [lodahsOsvFinding])).map claimIdentityKey).Nodup := by
  constructor
  · decide
  · decide

theorem osvFallbackWithLog_log (env : OsvEnv) (pkgs : List (String × String))
    (acc : List (String × List OsvVulnerability) × List (String × String)) :
    (osvFallbackWithLog env pkgs acc).2 = acc.2 ++ pkgs := by
  induction pkgs generalizing acc with
  | nil => simp [osvFallbackWithLog]
  | cons p rest ih =>
    rw [osvFallbackWithLog, ih]
    simp

theorem osvFallbackWithLog_no_key (env : OsvEnv) (pkgs : List (String × String))
    (acc : List (String × List OsvVulnerability) × List (String × String)) (k : String)
    (h : ∀ p ∈ pkgs, pkgKey p ≠ k) :
    mapGet (osvFallbackWithLog env pkgs acc).1 k = mapGet acc.1 k := by
  induction pkgs generalizing acc with
  | nil => rfl
  | cons p rest ih =>
    rw [osvFallbackWithLog, ih _ (fun q hq => h q (by simp [hq]))]
    by_cases hv : (queryOsv env p.1 p.2).length > 0
    · simp only [hv, if_pos]
      exact mapGet_mapSet_ne _ _ _ _ (h p (by simp))
    · simp only [hv, if_neg, ite_false]

theorem osvFallbackWithLog_results (env : OsvEnv) (pkgs : List (String × String))
    (acc : List (String × List OsvVulnerability) × List (String × String))
    (hnd : (pkgs.map pkgKey).Nodup)
    (hacc : ∀ p ∈ pkgs, mapGet acc.1 (pkgKey p) = none) :
    ∀ p ∈ pkgs,
      mapGet (osvFallbackWithLog env pkgs acc).1 (pkgKey p)
        = if queryOsv env p.1 p.2 = [] then none else some (queryOsv env p.1 p.2) := by
  induction pkgs generalizing acc with
  | nil => intro p hp; simp at hp
  | cons q rest ih =>
    simp only [List.map_cons, List.nodup_cons] at hnd
    intro p hp
    rcases List.mem_cons.mp hp with hpq | hpr
    · subst hpq
      rw [osvFallbackWithLog]
      have hnk : ∀ r ∈ rest, pkgKey r ≠ pkgKey p := by
        intro r hr he
        exact hnd.1 (he ▸ List.mem_map_of_mem pkgKey hr)
      rw [osvFallbackWithLog_no_key env rest _ _ hnk]
      rcases hq : queryOsv env p.1 p.2 with _ | ⟨v, vs⟩
      · simp only [hq, List.length_nil, gt_iff_lt, Nat.lt_irrefl, ite_false, if_pos rfl]
        exact hacc p (by simp)
      · simp only [hq, List.length_cons, Nat.succ_pos, gt_iff_lt, ite_true]
        simp only [reduceCtorEq, ite_false]
        exact mapGet_mapSet_self _ _ _
    · have hacc2 : ∀ r ∈ rest,
          mapGet ((if (queryOsv env q.1 q.2).length > 0
              then mapSet acc.1 (pkgKey q) (queryOsv env q.1 q.2) else acc.1)) (pkgKey r)
            = none := by
        intro r hr
        have hkne : pkgKey q ≠ pkgKey r := by
          intro he
          exact hnd.1 (he ▸ List.mem_map_of_mem pkgKey hr)
        by_cases hv : (queryOsv env q.1 q.2).length > 0
        · simp only [hv, ite_true]
          rw [mapGet_mapSet_ne _ _ _ _ hkne]
          exact hacc r (by simp [hr])
        · simp only [hv, ite_false]
          exact hacc r (by simp [hr])
      rw [osvFallbackWithLog]
      exact ih _ hnd.2 hacc2 p hpr

/-- C5: when the batch OSV query fails (thrown network error or non-success
status), `batchQueryOsv` issues exactly one individual fallback query per
package of the batch, in order; and the result map entry of each package is
determined solely by its own individual query, so one failing individual query
skips only that package while the others' results are still returned. -/
theorem batchQueryOsv_fallback (env : OsvEnv) (pkgs : List (String × String))
    (hfail : env.batch = .thrown ∨ env.batch = .notOk)
    (hnd : (pkgs.map pkgKey).Nodup) :
    (batchQueryOsv env pkgs).2 = pkgs ∧
    ∀ p ∈ pkgs,
      mapGet (batchQueryOsv env pkgs).1 (pkgKey p)
        = if queryOsv env p.1 p.2 = [] then none else some (queryOsv env p.1 p.2) := by
  have hb : batchQueryOsv env pkgs = osvFallbackWithLog env pkgs ([], []) := by
    rcases hfail with h | h <;> rw [batchQueryOsv, h]
  rw [hb]
  constructor
  · rw [osvFallbackWithLog_log]
    rfl
  · exact osvFallbackWithLog_results env pkgs ([], []) hnd (fun p _ => rfl)

/-- Witness for C5: a two-package batch against `osvExampleEnv`; the
individual query for `b` fails, yet the result for `a` is present and the log
records exactly one query per package. -/
theorem batchQueryOsv_fallback_witness :
    (batchQueryOsv osvExampleEnv [("a", "1.0.0"), ("b", "2.0.0")]).2
      = [("a", "1.0.0"), ("b", "2.0.0")] ∧
    mapGet (batchQueryOsv osvExampleEnv [("a", "1.0.0"), ("b", "2.0.0")]).1
        (pkgKey ("a", "1.0.0")) = some [⟨"OSV-2023-1"⟩] ∧
    mapGet (batchQueryOsv osvExampleEnv [("a", "1.0.0"), ("b", "2.0.0")]).1
        (pkgKey ("b", "2.0.0")) = none := by
  have h := batchQueryOsv_fallback osvExampleEnv [("a", "1.0.0"), ("b", "2.0.0")]
    (Or.inl rfl) (by decide)
  refine ⟨h.1, ?_, ?_⟩
  · rw [h.2 ("a", "1.0.0") (by decide)]
    decide
  · rw [h.2 ("b", "2.0.0") (by decide)]
    decide

/-- C7: every dependency entry of any of the four manifest sections is emitted
by `parsePackageJson` with its version-range string cleaned by `cleanVersion`
(leading run of the characters `^ ~ > = <` stripped, then the first
space-delimited token kept), and `cleanVersion` maps `^4.17.21` to
`4.17.21`. -/
theorem parsePackageJson_cleans_versions :
    (∀ (m : PackageManifest) (deps : List (String × String)) (n r : String),
        m.dependencies = some deps → (n, r) ∈ deps →
        (⟨n, cleanVersion r, false⟩ : PackageRef) ∈ parsePackageJsonDeps m) ∧
    (∀ (m : PackageManifest) (deps : List (String × String)) (n r : String),
        m.devDependencies = some deps → (n, r) ∈ deps →
        (⟨n, cleanVersion r, true⟩ : PackageRef) ∈ parsePackageJsonDeps m) ∧
    (∀ (m : PackageManifest) (deps : List (String × String)) (n r : String),
        m.peerDependencies = some deps → (n, r) ∈ deps →
        (⟨n, cleanVersion r, false⟩ : PackageRef) ∈ parsePackageJsonDeps m) ∧
    (∀ (m : PackageManifest) (deps : List (String × String)) (n r : String),
        m.optionalDependencies = some deps → (n, r) ∈ deps →
        (⟨n, cleanVersion r, false⟩ : PackageRef) ∈ parsePackageJsonDeps m) ∧
    (∀ r : String,
        cleanVersion r
          = String.mk ((r.data.dropWhile isRangeOp).takeWhile (fun c => !(c == ' ')))) ∧
    cleanVersion "^4.17.21" = "4.17.21" := by
  refine ⟨?_, ?_, ?_, ?_, fun r => rfl, by decide⟩ <;>
    · intro m deps n r hsec hmem
      unfold parsePackageJsonDeps
      simp only [List.mem_append]
      first
      | exact Or.inl (Or.inl (Or.inl (by
          rw [hsec]; exact List.mem_map_of_mem _ hmem)))
      | exact Or.inl (Or.inl (Or.inr (by
          rw [hsec]; exact List.mem_map_of_mem _ hmem)))
      | exact Or.inl (Or.inr (by
          rw [hsec]; exact List.mem_map_of_mem _ hmem))
      | exact Or.inr (by
          rw [hsec]; exact List.mem_map_of_mem _ hmem)

/-- Witness for C7: a one-entry manifest declaring `lodash: ^4.17.21` in
`dependencies` yields the package reference with version `4.17.21`. -/
theorem parsePackageJson_cleans_versions_witness :
    (⟨"lodash", cleanVersion "^4.17.21", false⟩ : PackageRef)
      ∈ parsePackageJsonDeps
          { dependencies := some [("lodash", "^4.17.21")] } :=
  parsePackageJson_cleans_versions.1
    { dependencies := some [("lodash", "^4.17.21")] }
    [("lodash", "^4.17.21")] "lodash" "^4.17.21" rfl (by decide)

theorem extractDeps_isDev_true_aux :
    ∀ (n : Nat) (deps : List (String × LockDep)), sizeOf deps ≤ n →
      ∀ p ∈ extractDeps deps true, p.isDev = true := by
  intro n
  induction n with
  | zero =>
    intro deps h p hp
    cases deps with
    | nil => rw [extractDeps.eq_1] at hp; simp at hp
    | cons q rest => simp at h
  | succ n ih =>
    intro deps h p hp
    cases deps with
    | nil => rw [extractDeps.eq_1] at hp; simp at hp
    | cons q rest =>
      obtain ⟨name, d⟩ := q
      cases d with
      | mk ver dev children =>
        have hsz : sizeOf children ≤ n ∧ sizeOf rest ≤ n := by
          simp only [List.cons.sizeOf_spec, Prod.mk.sizeOf_spec, LockDep.mk.sizeOf_spec] at h
          omega
        cases ver with
        | none =>
          rw [extractDeps.eq_3] at hp
          simp only [List.nil_append, List.mem_append] at hp
          rcases hp with hchild | hrest
          · rw [Bool.or_true] at hchild
            exact ih children hsz.1 p hchild
          · exact ih rest hsz.2 p hrest
        | some v =>
          rw [extractDeps.eq_2] at hp
          simp only [List.mem_append] at hp
          rcases hp with (hself | hchild) | hrest
          · by_cases hv : v ≠ ""
            · rw [if_pos hv] at hself
              simp only [List.mem_singleton] at hself
              subst hself
              simp
            · rw [if_neg hv] at hself
              simp at hself
          · rw [Bool.or_true] at hchild
            exact ih children hsz.1 p hchild
          · exact ih rest hsz.2 p hrest

/-- C8: in the nested (lockfileVersion 1) schema of `parseLockFile`, the dev
flag propagates downward. First conjunct: once the propagated flag is set,
every emitted descendant is dev. Second conjunct: an entry whose own `dev`
flag is set is emitted, together with its whole subtree, with `isDev = true`,
whatever the ambient flag — so every package whose ancestor chain contains a
dev-only entry is emitted as dev. Third conjunct: the nested branch of
`parseLockFile` is `extractDeps` with initial flag `false`. -/
theorem parseLockFile_nested_dev_propagates :
    (∀ (deps : List (String × LockDep)), ∀ p ∈ extractDeps deps true,
        p.isDev = true) ∧
    (∀ (name : String) (ver : Option String) (children : List (String × LockDep))
        (isDev : Bool),
        ∀ p ∈ extractDeps [(name, LockDep.mk ver true children)] isDev,
        p.isDev = true) ∧
    (∀ deps : List (String × LockDep),
        parseLockFileData { dependencies := some deps } = extractDeps deps false) := by
  have main : ∀ (deps : List (String × LockDep)), ∀ p ∈ extractDeps deps true,
      p.isDev = true :=
    fun deps => extractDeps_isDev_true_aux (sizeOf deps) deps (Nat.le_refl _)
  refine ⟨main, ?_, fun deps => rfl⟩
  intro name ver children isDev p hp
  cases ver with
  | none =>
    rw [extractDeps.eq_3] at hp
    simp only [Bool.true_or, List.nil_append, List.mem_append] at hp
    rcases hp with hchild | hrest
    · exact main children p hchild
    · rw [extractDeps.eq_1] at hrest
      simp at hrest
  | some v =>
    rw [extractDeps.eq_2] at hp
    simp only [Bool.true_or, List.mem_append] at hp
    rcases hp with (hself | hchild) | hrest
    · by_cases hv : v ≠ ""
      · rw [if_pos hv] at hself
        simp only [List.mem_singleton] at hself
        subst hself
        rfl
      · rw [if_neg hv] at hself
        simp at hself
    · exact main children p hchild
    · rw [extractDeps.eq_1] at hrest
      simp at hrest

/-- Witness for C8: a dev-only entry with a non-dev child; the child is
emitted with `isDev = true`. -/
theorem parseLockFile_nested_dev_propagates_witness :
    (⟨"b", "2.0.0", true⟩ : PackageRef).isDev = true :=
  parseLockFile_nested_dev_propagates.2.1 "a" (some "1.0.0")
    [("b", LockDep.mk (some "2.0.0") false [])] false ⟨"b", "2.0.0", true⟩
    (by simp [extractDeps.eq_2, extractDeps.eq_1])

/-- C9: `runNpmAudit` returns the empty list immediately when no
`package.json` exists, and converts every failure of its pipeline — lock-file
synthesis, audit invocation, JSON parse of the report — into the empty list:
it is a total function of its environment and never propagates an error. -/
theorem runNpmAudit_error_containment :
    (∀ env : AuditEnv, env.packageJsonExists = false → runNpmAudit env = []) ∧
    (∀ env : AuditEnv, env.packageLockExists = false → env.yarnLockExists = false →
        env.installOutcome = .error () → runNpmAudit env = []) ∧
    (∀ env : AuditEnv, env.auditOutcome = .error () → runNpmAudit env = []) ∧
    (∀ (env : AuditEnv) (s : String), env.auditOutcome = .ok s →
        env.parseAudit s = .error () → runNpmAudit env = []) := by
  refine ⟨?_, ?_, ?_, ?_⟩
  · intro env h
    simp [runNpmAudit, h]
  · intro env h1 h2 h3
    cases hpj : env.packageJsonExists <;>
      simp [runNpmAudit, hpj, h1, h2, h3]
  · intro env h
    cases hpj : env.packageJsonExists <;>
      cases hpl : env.packageLockExists <;>
        cases hyl : env.yarnLockExists <;>
          rcases hin : env.installOutcome with e | u <;>
            simp [runNpmAudit, hpj, hpl, hyl, hin, h]
  · intro env s h1 h2
    cases hpj : env.packageJsonExists <;>
      cases hpl : env.packageLockExists <;>
        cases hyl : env.yarnLockExists <;>
          rcases hin : env.installOutcome with e | u <;>
            cases hts : jsTrimEmpty s <;>
              simp [runNpmAudit, hpj, hpl, hyl, hin, h1, h2, hts]

/-- Witness for C9: a directory without `package.json`, and a directory whose
audit output fails to parse; both yield the empty finding list. -/
theorem runNpmAudit_error_containment_witness :
    runNpmAudit
        { packageJsonExists := false, packageLockExists := false,
          yarnLockExists := false, installOutcome := Except.ok (),
          auditOutcome := Except.ok "", parseAudit := fun _ => Except.error () }
      = [] ∧
    runNpmAudit
        { packageJsonExists := true, packageLockExists := true,
          yarnLockExists := false, installOutcome := Except.ok (),
          auditOutcome := Except.ok "not json", parseAudit := fun _ => Except.error () }
      = [] :=
  ⟨runNpmAudit_error_containment.1 _ rfl,
   runNpmAudit_error_containment.2.2.2 _ "not json" rfl rfl⟩

end SkillGuard
